import Mathlib

/-!
Verification of the `magic-ts` compile-time type-level utility library.

The repository is pure TypeScript type-level code: every "function" is a
generic type alias evaluated by the TypeScript type checker.  We give a
shallow embedding of the fragment of the TypeScript type language that the
library manipulates:

* `Ty` is the syntax of types: nullish types, primitive types, string and
  numeric literal types, structural object types (encoded as a cons-chain
  `objCons name valueTy rest` terminated by `objNil`, the empty object
  type `{}`), unions, and intersections.
* `extendsB` is the (non-distributive) assignability relation `S extends T`
  of the structural type system, as a fuel-indexed boolean decision
  procedure (fuel is a size bound, so the wrapper never runs out).
* `tyEq` is TypeScript's type *identity* relation, the one probed by the
  contravariant function-position trick
  `(<G>() => G extends T ? 1 : 2) extends (<G>() => G extends U ? 1 : 2)`:
  it never distributes over unions, compares unions as member sets and
  object types as field sets.
* A distributive conditional type `T extends B ? X : Y` with a naked
  parameter `T` is modelled by mapping over `unionMembers T` and re-uniting
  the branch results with `mkUnion` (flattening, dropping `never`,
  deduplicating - as the type checker does when it builds a union).

Tuples appear in the claims only as concrete tuples, so tuple operations
are modelled directly on `List Ty`.
-/

set_option maxHeartbeats 1000000
set_option linter.dupNamespace false

/-- Syntax of the TypeScript type fragment used by the library: `never`,
`null`, `undefined`, `string`, `number`, string/number literal types,
structural object types as a field chain (`objNil` is the empty object
type `{}`), unions and intersections. -/
inductive Ty : Type where
  | never : Ty
  | nul : Ty
  | undef : Ty
  | str : Ty
  | num : Ty
  | strLit : String → Ty
  | numLit : Nat → Ty
  | objNil : Ty
  | objCons : String → Ty → Ty → Ty
  | union : Ty → Ty → Ty
  | inter : Ty → Ty → Ty
  deriving DecidableEq, Repr

/-- The list of union members a naked type parameter distributes over:
unions are flattened and `never` contributes no member (TypeScript treats
`never` as the empty union in distributive positions). -/
def unionMembers : Ty → List Ty
  | .never => []
  | .union a b => unionMembers a ++ unionMembers b
  | t => [t]

/-- `true` exactly on the types whose `unionMembers` is not the singleton
of the type itself: unions and `never`. -/
def unionish : Ty → Bool
  | .union _ _ => true
  | .never => true
  | _ => false

/-- Number of constructors of a type; used as the fuel bound of the
decision procedures below. -/
def tySize : Ty → Nat
  | .objCons _ v r => 1 + tySize v + tySize r
  | .union a b => 1 + tySize a + tySize b
  | .inter a b => 1 + tySize a + tySize b
  | _ => 1

/-- Helper for `dedupTy`: drop the elements already seen. -/
def dedupAux : List Ty → List Ty → List Ty
  | _, [] => []
  | seen, x :: xs =>
    if x ∈ seen then dedupAux seen xs else x :: dedupAux (x :: seen) xs

/-- Remove duplicates from a list of types, keeping the first occurrence
of each type, the way the type checker normalises the member list of a
union it constructs. -/
def dedupTy (l : List Ty) : List Ty :=
  dedupAux [] l

/-- Fold a non-empty member list back into a (left-nested) union type. -/
def unionOfList : Ty → List Ty → Ty
  | acc, [] => acc
  | acc, x :: xs => unionOfList (Ty.union acc x) xs

/-- Build the union of a list of types the way the type checker does when
the branches of a distributive conditional are re-united: flatten nested
unions, drop `never` members, deduplicate; an empty member list gives
`never`. -/
def mkUnion (l : List Ty) : Ty :=
  match dedupTy (l.flatMap unionMembers) with
  | [] => .never
  | x :: xs => unionOfList x xs

/-- The merged property list of an object-like type: object types give
their own fields, an intersection of object-like types concatenates the
fields of its members (the library never intersects two objects sharing a
key, so concatenation with first-wins lookup is faithful here).  Types
that are not object-like have no property list. -/
def propsOf : Ty → Option (List (String × Ty))
  | .objNil => some []
  | .objCons k v r => (propsOf r).map (fun fs => (k, v) :: fs)
  | .inter a b =>
    match propsOf a, propsOf b with
    | some fa, some fb => some (fa ++ fb)
    | _, _ => none
  | _ => none

/-- Fuel-indexed assignability `S extends T` of the structural type
system (non-distributive, i.e. the relation checked for one member of a
distributing conditional): identical types are assignable, `never` is
assignable to everything, a union on the left requires every member to be
assignable, a union on the right requires some member to accept `S`,
nothing but `never` is assignable to `never`, literal types are assignable
to their primitive, and object-like types are compared by width/depth
subtyping on their merged property lists. -/
def extendsFuel : Nat → Ty → Ty → Bool
  | 0, _, _ => false
  | fuel + 1, S, T =>
    if S = T then true
    else if S = Ty.never then true
    else
      match S, T with
      | .union a b, _ => extendsFuel fuel a T && extendsFuel fuel b T
      | _, .union a b => extendsFuel fuel S a || extendsFuel fuel S b
      | _, .never => false
      | .strLit _, .str => true
      | .numLit _, .num => true
      | _, _ =>
        match propsOf S, propsOf T with
        | some f1, some f2 =>
          f2.all (fun p =>
            match f1.lookup p.1 with
            | some t1 => extendsFuel fuel t1 p.2
            | none => false)
        | _, _ => false

/-- Assignability with enough fuel: one unit of fuel is consumed per
recursion step and every step strictly shrinks the pair of types, so
`tySize S + tySize T + 1` can never run out. -/
def extendsB (S T : Ty) : Bool :=
  extendsFuel (tySize S + tySize T + 1) S T

/-- Fuel-indexed type identity, the relation computed by the library's
`IsEqual` function-position trick: it never distributes over unions;
unions (and `never`, the empty union) are compared as member *sets*;
object types are compared as field *sets* (order-insensitive, types
recursively identical); intersections are compared memberwise; distinct
leaf types are never identical. -/
def tyEqFuel : Nat → Ty → Ty → Bool
  | 0, _, _ => false
  | fuel + 1, S, T =>
    if S = T then true
    else if unionish S || unionish T then
      (unionMembers S).all (fun m => (unionMembers T).any (fun n => tyEqFuel fuel m n)) &&
        (unionMembers T).all (fun n => (unionMembers S).any (fun m => tyEqFuel fuel m n))
    else
      match S, T with
      | .inter a b, .inter c d => tyEqFuel fuel a c && tyEqFuel fuel b d
      | .objCons _ _ _, .objCons _ _ _ =>
        match propsOf S, propsOf T with
        | some f1, some f2 =>
          f1.all (fun p =>
            match f2.lookup p.1 with
            | some t2 => tyEqFuel fuel p.2 t2
            | none => false) &&
            f2.all (fun p =>
              match f1.lookup p.1 with
              | some t1 => tyEqFuel fuel t1 p.2
              | none => false)
        | _, _ => false
      | _, _ => false

/-- Type identity with enough fuel (`tySize`-bounded, as for `extendsB`). -/
def tyEq (S T : Ty) : Bool :=
  tyEqFuel (tySize S + tySize T + 1) S T


namespace Brand

/-- Source `brand/brand.type.ts:28`, `brand/brand.ts:28`:
`Brand<T, Name, Key> = T & { [K in Key]: Name }` — the mapped type over the
single literal key `Key` is the one-field object type `{ Key: Name }`, so
branding forms the syntactic intersection of the base shape and that
one-field object. -/
def Brand (T : Ty) (Name : String) (Key : String) : Ty :=
  Ty.inter T (Ty.objCons Key (Ty.strLit Name) Ty.objNil)

/-- Intersection-pairing inference for `Unbrand`'s pattern
`infer U & { [K in Key]: infer _Name extends string }` on one union
member: when the member is a syntactic branded intersection
`U & { Key: v }` with a string-like discriminant `v` (a string literal or
`string`), the pairing matches the one-field object against the mapped
part and infers `U` from the remaining intersection member. -/
def brandInferU (m : Ty) (Key : String) : Option Ty :=
  match m with
  | .inter U (.objCons k (.strLit _) .objNil) =>
    if k == Key then some U else none
  | .inter U (.objCons k .str .objNil) =>
    if k == Key then some U else none
  | _ => none

/-- Whole-source inference for `Unbrand`'s pattern: a naked `infer U`
inside an intersection target receives the whole source type, so a member
that is not a syntactic branded intersection still matches whenever it is
object-like and carries a field `Key` whose type satisfies the inferred
name's `extends string` constraint. -/
def hasStringField (m : Ty) (Key : String) : Bool :=
  match propsOf m with
  | some fs =>
    match fs.lookup Key with
    | some v => extendsB v Ty.str
    | none => false
  | none => false

/-- One distributed branch of `Unbrand`: the member matches the pattern
via intersection pairing (yielding the inferred base `U`) or via
whole-source inference (yielding the member itself), and otherwise the
branch produces `Default`. -/
def unbrandMember (m : Ty) (Key : String) (Default : Ty) : Ty :=
  match brandInferU m Key with
  | some U => U
  | none => if hasStringField m Key then m else Default

/-- The condition under which one union member matches `Unbrand`'s
`infer` pattern at all (either inference route). -/
def matchesBrandPattern (m : Ty) (Key : String) : Bool :=
  (brandInferU m Key).isSome || hasStringField m Key

/-- Source `brand/brand.type.ts:36`:
`Brand__Unbrand<T, Key, Default> = T extends Brand<infer U, infer _Name, Key> ? U : Default`.
`T` is a naked type parameter, so the conditional distributes over the
union members of `T` (zero members for `never`) and the branch results
are re-united. -/
def Unbrand (T : Ty) (Key : String) (Default : Ty) : Ty :=
  mkUnion ((unionMembers T).map (fun m => unbrandMember m Key Default))

end Brand

namespace Boolean

/-- Source `boolean.ts` (canonical copy): the brand key `"__truthhood"`. -/
def TruthhoodBrandKey : String := "__truthhood"

/-- Source `boolean.ts`: `True = Brand<{}, "true", TruthhoodBrandKey>`. -/
def True : Ty := Brand.Brand Ty.objNil "true" TruthhoodBrandKey

/-- Source `boolean.ts`: `False = Brand<{}, "false", TruthhoodBrandKey>`. -/
def False : Ty := Brand.Brand Ty.objNil "false" TruthhoodBrandKey

/-- Source `boolean.ts` (canonical copy): `Any = False | True`. -/
def Any : Ty := Ty.union False True

end Boolean

namespace Inheritance

/-- Source `inheritance/inheritance.type.ts:229`:
`IsEqual<T, U, OnTrue, OnFalse> = (<G>() => G extends T ? 1 : 2) extends (<G>() => G extends U ? 1 : 2) ? OnTrue : OnFalse`.
`T` and `U` sit in a function-type position, not as naked parameters, so
the conditional never distributes over unions and the comparison is the
type checker's *identity* relation, modelled by `tyEq`. -/
def IsEqual (T U OnTrue OnFalse : Ty) : Ty :=
  if tyEq T U then OnTrue else OnFalse

/-- Source `inheritance/inheritance.ts:98`: `Equals` is the same
function-position identity trick as `IsEqual`, with the same defaults. -/
def Equals (T U OnYes OnNo : Ty) : Ty :=
  if tyEq T U then OnYes else OnNo

/-- Source `inheritance/inheritance.type.ts:63`:
`IsExtensionOf<ExtendedType, BaseType, OnTrue, OnFalse> = ExtendedType extends BaseType ? OnTrue : OnFalse`.
`ExtendedType` is a naked type parameter, so the conditional distributes:
it is evaluated once per union member of `ExtendedType` (zero times for
`never`) and the branch results are re-united. -/
def IsExtensionOf (ExtendedType BaseType OnTrue OnFalse : Ty) : Ty :=
  mkUnion ((unionMembers ExtendedType).map
    (fun m => if extendsB m BaseType then OnTrue else OnFalse))

/-- Source `inheritance/inheritance.type.ts:104`:
`IsExtensionOfStrict<ExtendedType, BaseType> = IsEqual<IsExtensionOf<ExtendedType, BaseType>, Boolean.True>`
(with `IsEqual`'s default `OnTrue`/`OnFalse`). -/
def IsExtensionOfStrict (ExtendedType BaseType : Ty) : Ty :=
  IsEqual (IsExtensionOf ExtendedType BaseType Boolean.True Boolean.False)
    Boolean.True Boolean.True Boolean.False

end Inheritance

namespace Conditional

/-- Source `conditional/conditional.ts:51`:
`If<Condition, OnTrue, OnFalse> = Inheritance.IsEqual<Condition, Boolean.True, OnTrue, OnFalse>`. -/
def If (Condition OnTrue OnFalse : Ty) : Ty :=
  Inheritance.IsEqual Condition Boolean.True OnTrue OnFalse

/-- Source `conditional/conditional.ts:57`:
`Or<A, B> = If<A, Boolean.True, If<B, Boolean.True, Boolean.False>>`. -/
def Or (A B : Ty) : Ty :=
  If A Boolean.True (If B Boolean.True Boolean.False)

/-- Source `conditional/conditional.ts:63`:
`And<A, B, OnTrue, OnFalse> = If<A, If<B, OnTrue, OnFalse>, OnFalse>`
(the two-argument copy at `conditional.ts:24` is this with the default
`OnTrue = Boolean.True`, `OnFalse = Boolean.False`). -/
def And (A B OnTrue OnFalse : Ty) : Ty :=
  If A (If B OnTrue OnFalse) OnFalse

/-- Source `conditional/conditional.ts:70`:
`Not<A> = Inheritance.IsEqual<A, Boolean.True, Boolean.False, Boolean.True>`. -/
def Not (A : Ty) : Ty :=
  Inheritance.IsEqual A Boolean.True Boolean.False Boolean.True

/-- Source `conditional/conditional.ts:76`: `Nand<A, B> = Not<And<A, B>>`. -/
def Nand (A B : Ty) : Ty :=
  Not (And A B Boolean.True Boolean.False)

/-- Source `conditional/conditional.ts:77`:
`Xor<A, B> = Or<And<A, Not<B>>, And<Not<A>, B>>`. -/
def Xor (A B : Ty) : Ty :=
  Or (And A (Not B) Boolean.True Boolean.False)
    (And (Not A) B Boolean.True Boolean.False)

end Conditional

namespace Inheritance

/-- Source `inheritance/inheritance.type.ts:173`:
`IsSubTypeOf<Sub, Super, OnTrue, OnFalse> = And<Not<IsExtensionOf<Sub, Super>>, IsExtensionOf<Super, Sub>, OnTrue, OnFalse>`. -/
def IsSubTypeOf (MaybeSubType MaybeSuperType OnTrue OnFalse : Ty) : Ty :=
  Conditional.And
    (Conditional.Not (IsExtensionOf MaybeSubType MaybeSuperType Boolean.True Boolean.False))
    (IsExtensionOf MaybeSuperType MaybeSubType Boolean.True Boolean.False)
    OnTrue OnFalse

/-- Source `inheritance/inheritance.type.ts:200`:
`IsSuperTypeOf<Super, Sub, OnTrue, OnFalse> = And<Not<IsExtensionOf<Super, Sub>>, IsExtensionOf<Sub, Super>, OnTrue, OnFalse>`. -/
def IsSuperTypeOf (MaybeSuperType MaybeSubType OnTrue OnFalse : Ty) : Ty :=
  Conditional.And
    (Conditional.Not (IsExtensionOf MaybeSuperType MaybeSubType Boolean.True Boolean.False))
    (IsExtensionOf MaybeSubType MaybeSuperType Boolean.True Boolean.False)
    OnTrue OnFalse

/-- Source `inheritance/inheritance.ts:64`:
`IsParentOf<T, U> = And<IsExtensionOf<U, T>, Not<IsExtensionOf<T, U>>>`
(two-argument `And`, i.e. default `OnTrue`/`OnFalse`). -/
def IsParentOf (T U : Ty) : Ty :=
  Conditional.And
    (IsExtensionOf U T Boolean.True Boolean.False)
    (Conditional.Not (IsExtensionOf T U Boolean.True Boolean.False))
    Boolean.True Boolean.False

/-- Source `inheritance/inheritance.ts:80`: `IsChildOf<T, U> = IsParentOf<U, T>`. -/
def IsChildOf (T U : Ty) : Ty :=
  IsParentOf U T

end Inheritance

namespace Exception

/-- Source `exception/exception.ts:9`:
`Exception<Message, Context> = { __message: Exception-prefixed Message; __context: Context }`
(the `__message` field is the template literal type prefixing the message
with `"Exception: "`). -/
def Exception (Message : String) (Context : Ty) : Ty :=
  Ty.objCons "__message" (Ty.strLit ("Exception: " ++ Message))
    (Ty.objCons "__context" Context Ty.objNil)

end Exception

namespace None

/-- Source `none/none.ts:6`: `None = Brand.Brand<{}, "None">` with the
default brand key `"__brand"`. -/
def None : Ty := Brand.Brand Ty.objNil "None" "__brand"

/-- Source `none/none.ts:18` (`FromNull$`):
`FromNull$<T> = Inheritance.Equals<T, null, None, Exception.Exception<"T does not equal `null`", T>>`. -/
def FromNullS (T : Ty) : Ty :=
  Inheritance.Equals T Ty.nul None
    (Exception.Exception "T does not equal `null`" T)

/-- Source `none/none.ts:28` (`FromUndefined$`). -/
def FromUndefinedS (T : Ty) : Ty :=
  Inheritance.Equals T Ty.undef None
    (Exception.Exception "T does not equal `undefined`" T)

/-- Source `none/none.ts:38` (`FromNever$`). -/
def FromNeverS (T : Ty) : Ty :=
  Inheritance.Equals T Ty.never None
    (Exception.Exception "T does not equal `never`" T)

/-- Source `none/none.ts:47`: `FromNilType<T>` tries `null`, then
`undefined`, then `never`, and otherwise produces the exception marker. -/
def FromNilType (T : Ty) : Ty :=
  Inheritance.Equals T Ty.nul None
    (Inheritance.Equals T Ty.undef None
      (Inheritance.Equals T Ty.never None
        (Exception.Exception "T does not equal `null`, `undefined`, or `never`" T)))

end None

namespace Struct

/-- Source `struct/key.runtime.ts:104`:
`Get<TStruct, Key, Default> = Key extends keyof TStruct ? TStruct[Key] : Default`:
if `Key` is one of the object's keys the field's type, else `Default`. -/
def Get (TStruct : Ty) (Key : String) (Default : Ty) : Ty :=
  match propsOf TStruct with
  | some fs =>
    match fs.lookup Key with
    | some v => v
    | none => Default
  | none => Default

/-- Source `struct/key.type.ts:174`:
`KeysFilterToSameType<T1, T2, Keys> = { [Key in Keys]: IsEqual<Get<T1, Key>, Get<T2, Key>, Key, never> }[Keys]`:
the mapped type evaluates the body once per member of the key union and
the indexed access re-unites the results (`never` results drop out of the
union). -/
def KeysFilterToSameType (TStruct1 TStruct2 Keys : Ty) : Ty :=
  mkUnion ((unionMembers Keys).map (fun k =>
    match k with
    | .strLit s =>
      Inheritance.IsEqual (Get TStruct1 s Ty.never) (Get TStruct2 s Ty.never)
        k Ty.never
    | _ => Ty.never))

end Struct

namespace Tuple

/-- Source `tuple/tuple.type.ts:83` (and the identical second copy at
`tuple.type.ts:298`): `Zip` takes one head from each tuple in turn and,
once one side is exhausted, keeps consuming the other. -/
def Zip : List Ty → List Ty → List Ty
  | h1 :: t1, h2 :: t2 => h1 :: h2 :: Zip t1 t2
  | h1 :: t1, [] => h1 :: Zip t1 []
  | [], h2 :: t2 => h2 :: Zip [] t2
  | [], [] => []

/-- Source `tuple/tuple.type.ts:25` (first copy of `Tuple__HasHead`):
`T extends [infer _Head] ? OnTrue : OnFalse` — the pattern `[infer _Head]`
is a fixed-length one-tuple, so only tuples of length exactly one match. -/
def HasHeadV1 (T : List Ty) (OnTrue OnFalse : Ty) : Ty :=
  match T with
  | [_] => OnTrue
  | _ => OnFalse

/-- Source `tuple/tuple.type.ts:224` (second copy of `Tuple__HasHead`):
`T extends [infer _Head] ? OnTrue : T extends [infer _Head, ...infer _Tail] ? OnTrue : OnFalse`
— any tuple with at least one element matches one of the two patterns. -/
def HasHeadV2 (T : List Ty) (OnTrue OnFalse : Ty) : Ty :=
  match T with
  | [_] => OnTrue
  | _ :: _ :: _ => OnTrue
  | [] => OnFalse

end Tuple


theorem tyEq_true_true : tyEq Boolean.True Boolean.True = true := by decide

theorem tyEq_false_true : tyEq Boolean.False Boolean.True = false := by decide

/-- `And<Not<E>, E>` is `OnFalse` for every type `E`: whichever way the
identity test `E = Boolean.True` goes, one of the two conjuncts selects
the false branch. -/
theorem condAnd_not_self (E OnT OnF : Ty) :
    Conditional.And (Conditional.Not E) E OnT OnF = OnF := by
  unfold Conditional.And Conditional.Not Conditional.If Inheritance.IsEqual
  cases h : tyEq E Boolean.True <;>
    simp [h, tyEq_true_true, tyEq_false_true]

/-- `And<E, Not<E>>` is `OnFalse` for every type `E`. -/
theorem condAnd_self_not (E OnT OnF : Ty) :
    Conditional.And E (Conditional.Not E) OnT OnF = OnF := by
  unfold Conditional.And Conditional.Not Conditional.If Inheritance.IsEqual
  cases h : tyEq E Boolean.True <;>
    simp [h, tyEq_true_true, tyEq_false_true]

theorem tupleZip_nil_left (l : List Ty) : Tuple.Zip [] l = l := by
  induction l with
  | nil => simp [Tuple.Zip]
  | cons h t ih => simp [Tuple.Zip, ih]

theorem tupleZip_nil_right (l : List Ty) : Tuple.Zip l [] = l := by
  induction l with
  | nil => simp [Tuple.Zip]
  | cons h t ih => simp [Tuple.Zip, ih]

/-- Claim C2: for the disjoint shapes `A = {a: string}` and
`B = {b: number}` and their union `U = A | B`: `IsExtensionOf<A, U>` and
`IsExtensionOf<B, U>` are `Boolean.True`, `IsExtensionOf<U, A>` is the
union `Boolean.True | Boolean.False` (the check distributes per union
member and the per-member results are re-unioned), and
`IsExtensionOfStrict<U, A>` collapses that union to `Boolean.False`. -/
theorem claim_c2 :
    Inheritance.IsExtensionOf (Ty.objCons "a" Ty.str Ty.objNil)
      (Ty.union (Ty.objCons "a" Ty.str Ty.objNil) (Ty.objCons "b" Ty.num Ty.objNil))
      Boolean.True Boolean.False = Boolean.True ∧
    Inheritance.IsExtensionOf (Ty.objCons "b" Ty.num Ty.objNil)
      (Ty.union (Ty.objCons "a" Ty.str Ty.objNil) (Ty.objCons "b" Ty.num Ty.objNil))
      Boolean.True Boolean.False = Boolean.True ∧
    Inheritance.IsExtensionOf
      (Ty.union (Ty.objCons "a" Ty.str Ty.objNil) (Ty.objCons "b" Ty.num Ty.objNil))
      (Ty.objCons "a" Ty.str Ty.objNil)
      Boolean.True Boolean.False = Ty.union Boolean.True Boolean.False ∧
    Inheritance.IsExtensionOfStrict
      (Ty.union (Ty.objCons "a" Ty.str Ty.objNil) (Ty.objCons "b" Ty.num Ty.objNil))
      (Ty.objCons "a" Ty.str Ty.objNil) = Boolean.False := by
  decide

/-- Claim C3: `And`, `Or`, `Nand`, `Xor`, `Not` over
`{Boolean.True, Boolean.False}` match the classical truth tables exactly,
and `Nand` is definitionally `Not` of `And`. -/
theorem claim_c3 :
    (Conditional.And Boolean.True Boolean.True Boolean.True Boolean.False = Boolean.True ∧
      Conditional.And Boolean.True Boolean.False Boolean.True Boolean.False = Boolean.False ∧
      Conditional.And Boolean.False Boolean.True Boolean.True Boolean.False = Boolean.False ∧
      Conditional.And Boolean.False Boolean.False Boolean.True Boolean.False = Boolean.False ∧
      Conditional.Or Boolean.True Boolean.True = Boolean.True ∧
      Conditional.Or Boolean.True Boolean.False = Boolean.True ∧
      Conditional.Or Boolean.False Boolean.True = Boolean.True ∧
      Conditional.Or Boolean.False Boolean.False = Boolean.False ∧
      Conditional.Not Boolean.True = Boolean.False ∧
      Conditional.Not Boolean.False = Boolean.True ∧
      Conditional.Nand Boolean.True Boolean.True = Boolean.False ∧
      Conditional.Nand Boolean.True Boolean.False = Boolean.True ∧
      Conditional.Nand Boolean.False Boolean.True = Boolean.True ∧
      Conditional.Nand Boolean.False Boolean.False = Boolean.True ∧
      Conditional.Xor Boolean.True Boolean.True = Boolean.False ∧
      Conditional.Xor Boolean.True Boolean.False = Boolean.True ∧
      Conditional.Xor Boolean.False Boolean.True = Boolean.True ∧
      Conditional.Xor Boolean.False Boolean.False = Boolean.False) ∧
    (∀ A B : Ty, Conditional.Nand A B =
      Conditional.Not (Conditional.And A B Boolean.True Boolean.False)) :=
  ⟨by decide, fun _ _ => rfl⟩

/-- Claim C8: `Tuple.Zip` interleaves one element at a time and appends
the remainder of the longer tuple: the four boundary examples from the
spec, plus the three defining behaviours (interleaving step and the two
exhaustion cases) for arbitrary tuples. -/
theorem claim_c8 :
    Tuple.Zip [Ty.numLit 1, Ty.numLit 3, Ty.numLit 5]
      [Ty.numLit 2, Ty.numLit 4, Ty.numLit 6] =
      [Ty.numLit 1, Ty.numLit 2, Ty.numLit 3, Ty.numLit 4, Ty.numLit 5, Ty.numLit 6] ∧
    Tuple.Zip [Ty.numLit 1, Ty.numLit 3]
      [Ty.numLit 2, Ty.numLit 4, Ty.numLit 5, Ty.numLit 6] =
      [Ty.numLit 1, Ty.numLit 2, Ty.numLit 3, Ty.numLit 4, Ty.numLit 5, Ty.numLit 6] ∧
    Tuple.Zip [] [Ty.numLit 1, Ty.numLit 2] = [Ty.numLit 1, Ty.numLit 2] ∧
    Tuple.Zip ([] : List Ty) [] = [] ∧
    (∀ (a : Ty) (l1 : List Ty) (b : Ty) (l2 : List Ty),
      Tuple.Zip (a :: l1) (b :: l2) = a :: b :: Tuple.Zip l1 l2) ∧
    (∀ l : List Ty, Tuple.Zip [] l = l) ∧
    (∀ l : List Ty, Tuple.Zip l [] = l) := by
  refine ⟨by simp [Tuple.Zip], by simp [Tuple.Zip], by simp [Tuple.Zip],
    by simp [Tuple.Zip], ?_, tupleZip_nil_left, tupleZip_nil_right⟩
  intro a l1 b l2
  simp [Tuple.Zip]

/-- Claim C9 (divergence evidence): on the two-element tuple `[1, 2]` with
the default result parameters, the first copy of `Tuple.HasHead`
(`tuple.type.ts:25`, pattern `[infer _Head]`) yields `OnFalse` while the
second copy (`tuple.type.ts:224`) yields `OnTrue`, so the two duplicate
definitions do not compute the same result on tuples of length two or
more. -/
theorem claim_c9 :
    Tuple.HasHeadV1 [Ty.numLit 1, Ty.numLit 2] Boolean.True Boolean.False
      = Boolean.False ∧
    Tuple.HasHeadV2 [Ty.numLit 1, Ty.numLit 2] Boolean.True Boolean.False
      = Boolean.True ∧
    Boolean.False ≠ Boolean.True := by
  refine ⟨rfl, rfl, by decide⟩

/-- Claim C10: `If` tests its condition by exact identity with
`Boolean.True`, so every condition that is not exactly `Boolean.True`
selects the false branch; in particular `If<Boolean.Any, X, Y> = Y` and
`Not<Boolean.Any> = Boolean.True`. -/
theorem claim_c10 :
    (∀ C OnTrue OnFalse : Ty, tyEq C Boolean.True = false →
      Conditional.If C OnTrue OnFalse = OnFalse) ∧
    (∀ OnTrue OnFalse : Ty, Conditional.If Boolean.Any OnTrue OnFalse = OnFalse) ∧
    Conditional.Not Boolean.Any = Boolean.True := by
  refine ⟨?_, ?_, by decide⟩
  · intro C OnT OnF h
    unfold Conditional.If Inheritance.IsEqual
    simp [h]
  · intro OnT OnF
    unfold Conditional.If Inheritance.IsEqual
    simp [show tyEq Boolean.Any Boolean.True = false from by decide]

/-- Witness for C10: the hypothesis of the first part is satisfiable, e.g.
by the condition `Boolean.False`. -/
theorem claim_c10_witness :
    tyEq Boolean.False Boolean.True = false ∧
      Conditional.If Boolean.False Ty.str Ty.num = Ty.num :=
  ⟨by decide, claim_c10.1 Boolean.False Ty.str Ty.num (by decide)⟩

/-- Claim C1: `IsEqual` never returns a union — for all `T`, `U` it is
exactly `Boolean.True` or exactly `Boolean.False` — and consequently
`IsExtensionOfStrict` is always exactly one of the two markers, returning
`Boolean.False` whenever `IsExtensionOf` evaluates to the union of both
outcomes. -/
theorem claim_c1 :
    (∀ T U : Ty,
      Inheritance.IsEqual T U Boolean.True Boolean.False = Boolean.True ∨
        Inheritance.IsEqual T U Boolean.True Boolean.False = Boolean.False) ∧
    (∀ E B : Ty,
      Inheritance.IsExtensionOfStrict E B = Boolean.True ∨
        Inheritance.IsExtensionOfStrict E B = Boolean.False) ∧
    (∀ E B : Ty,
      (Inheritance.IsExtensionOf E B Boolean.True Boolean.False =
          Ty.union Boolean.True Boolean.False ∨
        Inheritance.IsExtensionOf E B Boolean.True Boolean.False =
          Ty.union Boolean.False Boolean.True) →
      Inheritance.IsExtensionOfStrict E B = Boolean.False) := by
  refine ⟨?_, ?_, ?_⟩
  · intro T U
    unfold Inheritance.IsEqual
    cases h : tyEq T U <;> simp [h]
  · intro E B
    unfold Inheritance.IsExtensionOfStrict Inheritance.IsEqual
    cases h : tyEq (Inheritance.IsExtensionOf E B Boolean.True Boolean.False)
        Boolean.True <;>
      simp [h]
  · intro E B h
    unfold Inheritance.IsExtensionOfStrict Inheritance.IsEqual
    rcases h with h | h <;> rw [h] <;>
      simp [show tyEq (Ty.union Boolean.True Boolean.False) Boolean.True = false
          from by decide,
        show tyEq (Ty.union Boolean.False Boolean.True) Boolean.True = false
          from by decide]

/-- Witness for C1: the union of two disjoint shapes tested against one
member realises the ambiguous case, and strict mode collapses it to
`Boolean.False`. -/
theorem claim_c1_witness :
    Inheritance.IsExtensionOf
      (Ty.union (Ty.objCons "x" Ty.str Ty.objNil) (Ty.objCons "y" Ty.num Ty.objNil))
      (Ty.objCons "x" Ty.str Ty.objNil) Boolean.True Boolean.False =
        Ty.union Boolean.True Boolean.False ∧
    Inheritance.IsExtensionOfStrict
      (Ty.union (Ty.objCons "x" Ty.str Ty.objNil) (Ty.objCons "y" Ty.num Ty.objNil))
      (Ty.objCons "x" Ty.str Ty.objNil) = Boolean.False :=
  ⟨by decide, claim_c1.2.2 _ _ (Or.inl (by decide))⟩

/-- Claim C5: `KeysFilterToSameType` on the spec's examples: identical
shapes `A = B = {a: string, b: number, d: {e: string}}` keep all of
`"a" | "b" | "d"`; when `B`'s nested field `d` omits the inner field `e`,
the key `"d"` is excluded while `"a"` and `"b"` are kept; and
`KeysFilterToSameType<{a: string}, {}, "a"> = never`. -/
theorem claim_c5 :
    Struct.KeysFilterToSameType
      (Ty.objCons "a" Ty.str (Ty.objCons "b" Ty.num
        (Ty.objCons "d" (Ty.objCons "e" Ty.str Ty.objNil) Ty.objNil)))
      (Ty.objCons "a" Ty.str (Ty.objCons "b" Ty.num
        (Ty.objCons "d" (Ty.objCons "e" Ty.str Ty.objNil) Ty.objNil)))
      (Ty.union (Ty.union (Ty.strLit "a") (Ty.strLit "b")) (Ty.strLit "d")) =
      Ty.union (Ty.union (Ty.strLit "a") (Ty.strLit "b")) (Ty.strLit "d") ∧
    Struct.KeysFilterToSameType
      (Ty.objCons "a" Ty.str (Ty.objCons "b" Ty.num
        (Ty.objCons "d" (Ty.objCons "e" Ty.str Ty.objNil) Ty.objNil)))
      (Ty.objCons "a" Ty.str (Ty.objCons "b" Ty.num
        (Ty.objCons "d" Ty.objNil Ty.objNil)))
      (Ty.union (Ty.union (Ty.strLit "a") (Ty.strLit "b")) (Ty.strLit "d")) =
      Ty.union (Ty.strLit "a") (Ty.strLit "b") ∧
    Struct.KeysFilterToSameType (Ty.objCons "a" Ty.str Ty.objNil) Ty.objNil
      (Ty.strLit "a") = Ty.never := by
  decide

/-- An object-like type (one with a property list) is neither a union
nor `never`. -/
theorem unionish_false_of_propsOf_isSome (S : Ty)
    (h : (propsOf S).isSome = true) : unionish S = false := by
  cases S <;> simp [propsOf] at h <;> simp [unionish]

/-- A type that is neither a union nor `never` is its own single
distribution member. -/
theorem unionMembers_single (S : Ty) (h : unionish S = false) :
    unionMembers S = [S] := by
  cases S <;> simp [unionish] at h <;> simp [unionMembers]

/-- Re-uniting a one-branch distribution result gives the branch back,
for any branch that is not itself a union (and for `never`, which the
empty re-union also reproduces). -/
theorem mkUnion_single (S : Ty) (h : unionish S = false ∨ S = Ty.never) :
    mkUnion [S] = S := by
  rcases h with h | rfl
  · have hm : [S].flatMap unionMembers = [S] := by
      simp [unionMembers_single S h]
    have hd : dedupTy [S] = [S] := by
      unfold dedupTy
      rw [dedupAux, if_neg (by simp), dedupAux]
    unfold mkUnion
    rw [hm, hd]
    rfl
  · decide

/-- A union member that matches neither inference route of `Unbrand`'s
pattern produces the `Default` branch. -/
theorem unbrandMember_not_matching (T : Ty) (Key : String) (Default : Ty)
    (h : Brand.matchesBrandPattern T Key = false) :
    Brand.unbrandMember T Key Default = Default := by
  unfold Brand.matchesBrandPattern at h
  rcases Bool.or_eq_false_iff.mp h with ⟨h1, h2⟩
  unfold Brand.unbrandMember
  rcases hb : Brand.brandInferU T Key with _ | U
  · simp [h2]
  · rw [hb] at h1
    simp at h1

/-- Claim C6 (amended): unbranding a freshly branded object-like shape
recovers exactly the original base shape, for every shape, name literal
and discriminant key; a non-union input that matches neither inference
route of the branding pattern (the branded intersection with key `Key`,
or an object carrying a string-typed field `Key`, which the naked
`infer U` also accepts) yields the configurable `Default`; but `Unbrand`
distributes over the union members of its naked parameter, so
`Unbrand<never>` is `never` — not `Default` — and a union input is
unbranded memberwise. -/
theorem claim_c6 :
    (∀ (S : Ty) (Name Key : String) (Default : Ty),
      (propsOf S).isSome = true →
      Brand.Unbrand (Brand.Brand S Name Key) Key Default = S) ∧
    (∀ (T : Ty) (Key : String) (Default : Ty),
      unionish T = false →
      (unionish Default = false ∨ Default = Ty.never) →
      Brand.matchesBrandPattern T Key = false →
      Brand.Unbrand T Key Default = Default) ∧
    Brand.Unbrand Ty.never "k" Ty.str = Ty.never ∧
    Brand.Unbrand
      (Ty.union (Brand.Brand (Ty.objCons "a" Ty.str Ty.objNil) "NA" "k")
        (Brand.Brand (Ty.objCons "b" Ty.num Ty.objNil) "NB" "k")) "k" Ty.never =
      Ty.union (Ty.objCons "a" Ty.str Ty.objNil)
        (Ty.objCons "b" Ty.num Ty.objNil) := by
  refine ⟨?_, ?_, by decide, by decide⟩
  · intro S Name Key Default hS
    have hu : unionish S = false := unionish_false_of_propsOf_isSome S hS
    have hmem : unionMembers (Brand.Brand S Name Key) = [Brand.Brand S Name Key] := by
      simp [unionMembers_single, Brand.Brand, unionish]
    have hbr : Brand.unbrandMember (Brand.Brand S Name Key) Key Default = S := by
      simp [Brand.Brand, Brand.unbrandMember, Brand.brandInferU]
    unfold Brand.Unbrand
    rw [hmem, List.map_cons, List.map_nil, hbr]
    exact mkUnion_single S (Or.inl hu)
  · intro T Key Default hT hD h
    unfold Brand.Unbrand
    rw [unionMembers_single T hT, List.map_cons, List.map_nil,
      unbrandMember_not_matching T Key Default h]
    exact mkUnion_single Default hD

/-- Counterexample for C6 as stated: at the input `never` (which does not
match the branding pattern) with `Default = string`, the distributive
`Unbrand` evaluates over zero union members and yields `never`, not the
configurable default. -/
theorem claim_c6_counterexample :
    Brand.Unbrand Ty.never "k" Ty.str = Ty.never ∧
      Brand.matchesBrandPattern Ty.never "k" = false ∧
      Ty.never ≠ Ty.str := by
  decide

/-- Witness for C6: the round-trip on the empty shape, and the default on
an object without a string-typed brand field. -/
theorem claim_c6_witness :
    Brand.Unbrand (Brand.Brand Ty.objNil "N" "k") "k" Ty.never = Ty.objNil ∧
      Brand.Unbrand (Ty.objCons "a" Ty.num Ty.objNil) "k" Ty.undef = Ty.undef :=
  ⟨claim_c6.1 Ty.objNil "N" "k" Ty.never (by decide),
    claim_c6.2.1 (Ty.objCons "a" Ty.num Ty.objNil) "k" Ty.undef (by decide)
      (Or.inl (by decide)) (by decide)⟩

/-- Claim C7: `FromNilType` maps each of `null`, `undefined`, `never` to
the `None` marker; and each one-shot conversion yields `None` exactly when
its input is identical to its expected nullish variant, and otherwise the
`Exception` marker recording the mismatch. -/
theorem claim_c7 :
    None.FromNilType Ty.nul = None.None ∧
    None.FromNilType Ty.undef = None.None ∧
    None.FromNilType Ty.never = None.None ∧
    (∀ T : Ty, (None.FromNullS T = None.None ↔ tyEq T Ty.nul = true)) ∧
    (∀ T : Ty, tyEq T Ty.nul = false →
      None.FromNullS T = Exception.Exception "T does not equal `null`" T) ∧
    (∀ T : Ty, (None.FromUndefinedS T = None.None ↔ tyEq T Ty.undef = true)) ∧
    (∀ T : Ty, tyEq T Ty.undef = false →
      None.FromUndefinedS T = Exception.Exception "T does not equal `undefined`" T) ∧
    (∀ T : Ty, (None.FromNeverS T = None.None ↔ tyEq T Ty.never = true)) ∧
    (∀ T : Ty, tyEq T Ty.never = false →
      None.FromNeverS T = Exception.Exception "T does not equal `never`" T) := by
  refine ⟨by decide, by decide, by decide, ?_, ?_, ?_, ?_, ?_, ?_⟩
  · intro T
    unfold None.FromNullS Inheritance.Equals
    cases h : tyEq T Ty.nul <;>
      simp [h, Exception.Exception, None.None, Brand.Brand]
  · intro T h
    unfold None.FromNullS Inheritance.Equals
    simp [h]
  · intro T
    unfold None.FromUndefinedS Inheritance.Equals
    cases h : tyEq T Ty.undef <;>
      simp [h, Exception.Exception, None.None, Brand.Brand]
  · intro T h
    unfold None.FromUndefinedS Inheritance.Equals
    simp [h]
  · intro T
    unfold None.FromNeverS Inheritance.Equals
    cases h : tyEq T Ty.never <;>
      simp [h, Exception.Exception, None.None, Brand.Brand]
  · intro T h
    unfold None.FromNeverS Inheritance.Equals
    simp [h]

/-- Witness for C7: the non-nullish input `string` realises the exception
branch of all three one-shot conversions. -/
theorem claim_c7_witness :
    None.FromNullS Ty.str = Exception.Exception "T does not equal `null`" Ty.str ∧
    None.FromUndefinedS Ty.str =
      Exception.Exception "T does not equal `undefined`" Ty.str ∧
    None.FromNeverS Ty.str = Exception.Exception "T does not equal `never`" Ty.str :=
  ⟨claim_c7.2.2.2.2.1 Ty.str (by decide),
    claim_c7.2.2.2.2.2.2.1 Ty.str (by decide),
    claim_c7.2.2.2.2.2.2.2.2 Ty.str (by decide)⟩

theorem one_le_tySize (T : Ty) : 1 ≤ tySize T := by
  cases T <;> simp [tySize] <;> omega

/-- Flattened union members are never themselves union types. -/
theorem unionMembers_not_union :
    ∀ T : Ty, ∀ m ∈ unionMembers T, ∀ a b : Ty, m ≠ Ty.union a b := by
  intro T
  induction T with
  | never => intro m hm; simp [unionMembers] at hm
  | union a b iha ihb =>
    intro m hm c d
    rcases List.mem_append.mp (by simpa [unionMembers] using hm) with h | h
    · exact iha m h c d
    · exact ihb m h c d
  | nul => intro m hm c d; simp [unionMembers] at hm; subst hm; simp
  | undef => intro m hm c d; simp [unionMembers] at hm; subst hm; simp
  | str => intro m hm c d; simp [unionMembers] at hm; subst hm; simp
  | num => intro m hm c d; simp [unionMembers] at hm; subst hm; simp
  | strLit s => intro m hm c d; simp [unionMembers] at hm; subst hm; simp
  | numLit n => intro m hm c d; simp [unionMembers] at hm; subst hm; simp
  | objNil => intro m hm c d; simp [unionMembers] at hm; subst hm; simp
  | objCons k v r ihv ihr =>
    intro m hm c d; simp [unionMembers] at hm; subst hm; simp
  | inter a b iha ihb =>
    intro m hm c d; simp [unionMembers] at hm; subst hm; simp

/-- One evaluation step of `extendsFuel` against a union target, for a
source that is not itself a union: the check tries the members. -/
theorem extendsFuel_union_right (fuel : Nat) (m a b : Ty)
    (hnu : ∀ c d : Ty, m ≠ Ty.union c d)
    (h : (extendsFuel fuel m a || extendsFuel fuel m b) = true) :
    extendsFuel (fuel + 1) m (Ty.union a b) = true := by
  cases m
  case union x y => exact absurd rfl (hnu x y)
  all_goals simp [extendsFuel, h]

/-- Every flattened member of a type is assignable to the type, given
fuel at least the size of the type. -/
theorem mem_extendsFuel :
    ∀ fuel (T m : Ty), m ∈ unionMembers T → tySize T ≤ fuel →
      extendsFuel fuel m T = true := by
  intro fuel
  induction fuel with
  | zero =>
    intro T m _ hle
    have := one_le_tySize T
    omega
  | succ fuel ih =>
    intro T m hm hle
    cases T with
    | never => simp [unionMembers] at hm
    | union a b =>
      have hnu := unionMembers_not_union (Ty.union a b) m hm
      have hsa : tySize a ≤ fuel := by simp [tySize] at hle; omega
      have hsb : tySize b ≤ fuel := by simp [tySize] at hle; omega
      rcases List.mem_append.mp (by simpa [unionMembers] using hm) with h | h
      · exact extendsFuel_union_right fuel m a b hnu (by simp [ih a m h hsa])
      · exact extendsFuel_union_right fuel m a b hnu (by simp [ih b m h hsb])
    | nul => simp [unionMembers] at hm; subst hm; simp [extendsFuel]
    | undef => simp [unionMembers] at hm; subst hm; simp [extendsFuel]
    | str => simp [unionMembers] at hm; subst hm; simp [extendsFuel]
    | num => simp [unionMembers] at hm; subst hm; simp [extendsFuel]
    | strLit s => simp [unionMembers] at hm; subst hm; simp [extendsFuel]
    | numLit n => simp [unionMembers] at hm; subst hm; simp [extendsFuel]
    | objNil => simp [unionMembers] at hm; subst hm; simp [extendsFuel]
    | objCons k v r => simp [unionMembers] at hm; subst hm; simp [extendsFuel]
    | inter a b => simp [unionMembers] at hm; subst hm; simp [extendsFuel]

/-- Every flattened member of a type is assignable to the type. -/
theorem mem_extendsB (T m : Ty) (hm : m ∈ unionMembers T) :
    extendsB m T = true :=
  mem_extendsFuel (tySize m + tySize T + 1) T m hm (by omega)

theorem flatMap_all_true (l : List Ty) (hall : ∀ x ∈ l, x = Boolean.True) :
    l.flatMap unionMembers = l := by
  induction l with
  | nil => simp
  | cons x xs ih =>
    have hx := hall x (by simp)
    subst hx
    rw [List.flatMap_cons, ih (fun y hy => hall y (by simp [hy]))]
    rfl

theorem dedupAux_eq_nil (l : List Ty) :
    ∀ seen : List Ty, (∀ x ∈ l, x ∈ seen) → dedupAux seen l = [] := by
  induction l with
  | nil => intro seen _; rfl
  | cons x xs ih =>
    intro seen h
    rw [dedupAux, if_pos (h x (by simp))]
    exact ih seen (fun y hy => h y (by simp [hy]))

theorem dedupTy_all_true (l : List Ty) (hne : l ≠ [])
    (hall : ∀ x ∈ l, x = Boolean.True) : dedupTy l = [Boolean.True] := by
  rcases l with _ | ⟨x, xs⟩
  · exact absurd rfl hne
  · have hx := hall x (by simp)
    subst hx
    unfold dedupTy
    rw [dedupAux, if_neg (by simp)]
    rw [dedupAux_eq_nil xs [Boolean.True]
      (fun y hy => by rw [hall y (by simp [hy])]; simp)]

theorem mkUnion_all_true (l : List Ty) (hne : l ≠ [])
    (hall : ∀ x ∈ l, x = Boolean.True) : mkUnion l = Boolean.True := by
  unfold mkUnion
  rw [flatMap_all_true l hall, dedupTy_all_true l hne hall]
  rfl

/-- `IsExtensionOf<T, T> = Boolean.True` for every type with at least one
union member: each member is assignable to the whole type, so every
distributed branch yields `Boolean.True` and the re-united result
deduplicates to `Boolean.True`. -/
theorem isExtensionOf_self (T : Ty) (h : unionMembers T ≠ []) :
    Inheritance.IsExtensionOf T T Boolean.True Boolean.False = Boolean.True := by
  unfold Inheritance.IsExtensionOf
  apply mkUnion_all_true
  · simpa using h
  · intro x hx
    rcases List.mem_map.mp hx with ⟨m, hm, rfl⟩
    simp [mem_extendsB T m hm]

/-- Claim C4 (amended): the strict relations are non-reflexive for every
type `T` — `IsSubTypeOf<T, T>`, `IsSuperTypeOf<T, T>`, `IsParentOf<T, T>`
and `IsChildOf<T, T>` are all `Boolean.False` — and `IsExtensionOf<T, T>`
is `Boolean.True` for every `T` with at least one union member (for
`T = never`, the empty union, it instead distributes over zero members
and evaluates to `never`). -/
theorem claim_c4 :
    ∀ T : Ty,
      Inheritance.IsSubTypeOf T T Boolean.True Boolean.False = Boolean.False ∧
      Inheritance.IsSuperTypeOf T T Boolean.True Boolean.False = Boolean.False ∧
      Inheritance.IsParentOf T T = Boolean.False ∧
      Inheritance.IsChildOf T T = Boolean.False ∧
      (unionMembers T ≠ [] →
        Inheritance.IsExtensionOf T T Boolean.True Boolean.False = Boolean.True) := by
  intro T
  exact ⟨condAnd_not_self _ _ _, condAnd_not_self _ _ _,
    condAnd_self_not _ _ _, condAnd_self_not _ _ _, isExtensionOf_self T⟩

/-- Counterexample for C4 as stated: at `T = never` the claim's clause
`IsExtensionOf(T, T) = Boolean.True` fails — the distributive conditional
evaluates over zero union members and yields `never`. -/
theorem claim_c4_counterexample :
    Inheritance.IsExtensionOf Ty.never Ty.never Boolean.True Boolean.False =
        Ty.never ∧
      Ty.never ≠ Boolean.True := by
  decide

/-- Witness for C4: the shape `{a: string}` realises all five clauses. -/
theorem claim_c4_witness :
    Inheritance.IsSubTypeOf (Ty.objCons "a" Ty.str Ty.objNil)
        (Ty.objCons "a" Ty.str Ty.objNil) Boolean.True Boolean.False =
        Boolean.False ∧
      Inheritance.IsSuperTypeOf (Ty.objCons "a" Ty.str Ty.objNil)
        (Ty.objCons "a" Ty.str Ty.objNil) Boolean.True Boolean.False =
        Boolean.False ∧
      Inheritance.IsParentOf (Ty.objCons "a" Ty.str Ty.objNil)
        (Ty.objCons "a" Ty.str Ty.objNil) = Boolean.False ∧
      Inheritance.IsChildOf (Ty.objCons "a" Ty.str Ty.objNil)
        (Ty.objCons "a" Ty.str Ty.objNil) = Boolean.False ∧
      Inheritance.IsExtensionOf (Ty.objCons "a" Ty.str Ty.objNil)
        (Ty.objCons "a" Ty.str Ty.objNil) Boolean.True Boolean.False =
        Boolean.True :=
  ⟨(claim_c4 (Ty.objCons "a" Ty.str Ty.objNil)).1,
    (claim_c4 (Ty.objCons "a" Ty.str Ty.objNil)).2.1,
    (claim_c4 (Ty.objCons "a" Ty.str Ty.objNil)).2.2.1,
    (claim_c4 (Ty.objCons "a" Ty.str Ty.objNil)).2.2.2.1,
    (claim_c4 (Ty.objCons "a" Ty.str Ty.objNil)).2.2.2.2 (by decide)⟩
